import Mathlib

/-! Knight-swapping puzzle: embedding of `src/main.js`

The page script keeps one mutable `gameState` object and two module-level
variables `draggedFromRow` / `draggedFromCol`.  Here the whole mutable state is
one record, every handler is a function from state to state, and the browser
events are a small inductive type.

Conventions of the embedding
* JavaScript numbers that hold rows, columns and the move counter are `Int`.
* `type: 'white' | 'black'` is the two-constructor type `KnightType`.
* `gameState.gameOver` is absent from the object literal (so it reads `undefined`,
  which is falsy) until `checkForWin` assigns `true`; it is a `Bool` starting `false`.
* `JSON.parse(JSON.stringify(c))` on an array of `{row, col, type}` records is the
  identity on values, and Lean values are never aliased, so the deep copy is `c`.
* `Array.prototype.push` appends at the end and `pop` removes the last element.
* `Array.prototype.sort` is a stable sort; it is modelled by insertion sort with
  "`a` stays before `b` when the comparator result is `≤ 0`".
* An uncaught `TypeError` ends the running handler early and keeps the mutations
  made so far; `Run.threw` records it.
* DOM writes (text of the counter, the success banner, highlighting classes) do not
  feed back into the state and are left out, except for the listener wiring of
  `createBoard`, which decides which cells can deliver events at all.
-/

namespace KnightSwap

/-! ## Data model -/

/-- The `type` field of a knight record. -/
inductive KnightType where
  | white
  | black
deriving DecidableEq

/-- One element of a configuration array: `{row, col, type}`. -/
structure Knight where
  row : Int
  col : Int
  type : KnightType
deriving DecidableEq

/-- A configuration array. -/
abbrev Config := List Knight

/-- The record stored in `gameState.selectedCell`.  Its third field `knight` is a
reference that no code path ever reads, so only `row` and `col` are kept. -/
structure Selected where
  row : Int
  col : Int
deriving DecidableEq

/-- The mutable state of the page: the fields of `gameState` (lines 20-25), the
lazily created `gameOver` property, and the two drag variables (lines 41-42). -/
structure GameState where
  currentConfig : Config
  moveHistory : List Config
  moves : Int
  selectedCell : Option Selected
  gameOver : Bool
  draggedFromRow : Option Int
  draggedFromCol : Option Int
deriving DecidableEq

/-- What a handler leaves behind: the state, and whether it was cut short by an
uncaught exception. -/
structure Run where
  state : GameState
  threw : Bool
deriving DecidableEq

/-- Lines 2-7. -/
def validPositions : List (Int × Int) :=
  [(0, 1),
   (1, 1), (1, 2),
   (2, 1), (2, 2), (2, 3),
   (3, 0), (3, 1), (3, 2), (3, 3)]

/-- Lines 8-13. -/
def initialConfig : Config :=
  [⟨0, 1, .white⟩, ⟨2, 2, .white⟩, ⟨3, 0, .black⟩, ⟨3, 2, .black⟩]

/-- Lines 14-19. -/
def targetConfig : Config :=
  [⟨0, 1, .black⟩, ⟨2, 2, .black⟩, ⟨3, 0, .white⟩, ⟨3, 2, .white⟩]

/-- The state right after the script has run (lines 20-25, 41-42). -/
def initialState : GameState :=
  { currentConfig := initialConfig
    moveHistory := []
    moves := 0
    selectedCell := none
    gameOver := false
    draggedFromRow := none
    draggedFromCol := none }

/-! ## Topology and move legality -/

/-- Lines 30-35. -/
def isValidKnightMove (fromRow fromCol toRow toCol : Int) : Bool :=
  let rowDiff := (fromRow - toRow).natAbs
  let colDiff := (fromCol - toCol).natAbs
  (rowDiff == 2 && colDiff == 1) || (rowDiff == 1 && colDiff == 2)

/-- Lines 37-39. -/
def isValidPosition (row col : Int) : Bool :=
  validPositions.any (fun pos => pos.1 == row && pos.2 == col)

/-- The predicate `k => k.row === row && k.col === col` used by every lookup. -/
def isAt (row col : Int) (k : Knight) : Bool :=
  k.row == row && k.col == col

/-! ## Win detection -/

/-- The comparator passed to both `sort` calls (lines 255-259, 261-265). -/
def compareKnights (a b : Knight) : Int :=
  if a.row ≠ b.row then a.row - b.row
  else if a.col ≠ b.col then a.col - b.col
  else if a.type = .white then -1 else 1

/-- A sorted copy of a configuration: the expression spread-then-sort with
`compareKnights` of lines 255 and 261. -/
def sortConfig (c : Config) : Config :=
  c.insertionSort (fun a b => compareKnights a b ≤ 0)

/-- The call of `every` on `sortedCurrent` (lines 267-272), from position `index` on.
It stops at the first `false`; reading `.row` of the `undefined` that
`sortedTarget[index]` gives past the end throws a `TypeError` (`none`). -/
def everyMatches (sortedTarget : Config) : Config → Nat → Option Bool
  | [], _ => some true
  | knight :: rest, index =>
    match sortedTarget[index]? with
    | none => none
    | some targetKnight =>
      if knight.row = targetKnight.row ∧ knight.col = targetKnight.col ∧
          knight.type = targetKnight.type then
        everyMatches sortedTarget rest (index + 1)
      else some false

/-- The constant `matches` of `checkForWin` for a given current configuration
(lines 255-272). -/
def winMatches (current : Config) : Option Bool :=
  everyMatches (sortConfig targetConfig) (sortConfig current) 0

/-- Lines 254-281. -/
def checkForWin (s : GameState) : Run :=
  match winMatches s.currentConfig with
  | none => ⟨s, true⟩
  | some true => ⟨{ s with gameOver := true }, false⟩
  | some false => ⟨s, false⟩

/-! ## Move execution -/

/-- Lines 229-252. -/
def moveKnight (s : GameState) (fromRow fromCol toRow toCol : Int) : Run :=
  if s.gameOver then ⟨s, false⟩
  else if !isValidKnightMove fromRow fromCol toRow toCol then ⟨s, false⟩
  else
    match s.currentConfig.findIdx? (isAt fromRow fromCol) with
    | none => ⟨s, false⟩
    | some knightIndex =>
      let s1 := { s with moveHistory := s.moveHistory ++ [s.currentConfig] }
      let s2 := { s1 with
        currentConfig :=
          s1.currentConfig.modify (fun k => { k with row := toRow, col := toCol }) knightIndex }
      let s3 := { s2 with moves := s2.moves + 1 }
      checkForWin s3

/-! ## Handlers -/

/-- Lines 44-70; the arguments are the `data-row` / `data-col` of the cell that holds
the dragged knight. -/
def handleDragStart (s : GameState) (row col : Int) : GameState :=
  { s with
    draggedFromRow := some row
    draggedFromCol := some col
    selectedCell := some ⟨row, col⟩ }

/-- Lines 75-114; the arguments are the `data-row` / `data-col` of the drop target.
When either drag variable is `null` the lookup of line 88 finds nothing. -/
def handleDrop (s : GameState) (targetRow targetCol : Int) : Run :=
  let isTargetEmpty := !s.currentConfig.any (isAt targetRow targetCol)
  let cleanup (t : GameState) : GameState :=
    { t with draggedFromRow := none, draggedFromCol := none, selectedCell := none }
  match s.draggedFromRow, s.draggedFromCol with
  | some fromRow, some fromCol =>
    let draggedKnight := s.currentConfig.find? (isAt fromRow fromCol)
    if draggedKnight.isSome && isTargetEmpty &&
        isValidKnightMove fromRow fromCol targetRow targetCol then
      let r := moveKnight s fromRow fromCol targetRow targetCol
      if r.threw then r else ⟨cleanup r.state, false⟩
    else ⟨cleanup s, false⟩
  | _, _ => ⟨cleanup s, false⟩

/-- Lines 176-227; the arguments are the `data-row` / `data-col` of the clicked cell. -/
def handleCellClick (s : GameState) (row col : Int) : Run :=
  match s.selectedCell with
  | none =>
    match s.currentConfig.find? (isAt row col) with
    | some _ => ⟨{ s with selectedCell := some ⟨row, col⟩ }, false⟩
    | none => ⟨s, false⟩
  | some sel =>
    let isTargetEmpty := !s.currentConfig.any (isAt row col)
    if isTargetEmpty && isValidKnightMove sel.row sel.col row col then
      let r := moveKnight s sel.row sel.col row col
      if r.threw then r else ⟨{ r.state with selectedCell := none }, false⟩
    else
      match s.currentConfig.find? (isAt row col) with
      | some _ => ⟨{ s with selectedCell := some ⟨row, col⟩ }, false⟩
      | none => ⟨{ s with selectedCell := none }, false⟩

/-- The click listener of `reset-btn` (lines 298-308). -/
def reset (s : GameState) : GameState :=
  { s with
    currentConfig := initialConfig
    moveHistory := []
    moves := 0
    selectedCell := none }

/-- The click listener of `undo-btn` (lines 309-320). -/
def undo (s : GameState) : GameState :=
  match s.moveHistory.getLast? with
  | none => s
  | some previous =>
    { s with
      currentConfig := previous
      moveHistory := s.moveHistory.dropLast
      moves := max 0 (s.moves - 1)
      selectedCell := none }

/-! ## Events -/

/-- The user gestures that reach a listener, each with the cell it is delivered to. -/
inductive Event where
  | click (row col : Int)
  | dragStart (row col : Int)
  | drop (row col : Int)
  | undo
  | reset
deriving DecidableEq

/-- The state after one event has been handled. -/
def step (s : GameState) : Event → GameState
  | .click row col => (handleCellClick s row col).state
  | .dragStart row col => handleDragStart s row col
  | .drop row col => (handleDrop s row col).state
  | .undo => undo s
  | .reset => reset s

/-- The state after a sequence of events, oldest first. -/
def runEvents (s : GameState) (events : List Event) : GameState :=
  events.foldl step s

/-! ## Auxiliary definitions used by the statements -/

/-- The fields the puzzle engine owns: configuration, history, counter, win flag. -/
def engine (s : GameState) : Config × List Config × Int × Bool :=
  (s.currentConfig, s.moveHistory, s.moves, s.gameOver)

/-- The cells occupied by a configuration, in array order. -/
def cellsOf (c : Config) : List (Int × Int) :=
  c.map (fun k => (k.row, k.col))

/-- A board configuration as the data model describes it: four pieces, two white and
two black, on pairwise distinct legal cells. -/
def WellFormed (c : Config) : Prop :=
  c.length = 4 ∧
  (c.map (fun k => k.type)).count KnightType.white = 2 ∧
  (c.map (fun k => k.type)).count KnightType.black = 2 ∧
  (cellsOf c).Nodup ∧
  ∀ k ∈ c, isValidPosition k.row k.col = true

instance decidableWellFormed (c : Config) : Decidable (WellFormed c) := by
  unfold WellFormed
  infer_instance

/-- The current configuration and every snapshot kept for undo are well formed. -/
def Inv (s : GameState) : Prop :=
  WellFormed s.currentConfig ∧ ∀ c ∈ s.moveHistory, WellFormed c

/-- The cell an event is delivered to is one of the ten board cells. -/
def Event.onBoard : Event → Bool
  | .click row col => isValidPosition row col
  | .dragStart row col => isValidPosition row col
  | .drop row col => isValidPosition row col
  | .undo => true
  | .reset => true

/-! ## The board elements and the delivery of events -/

/-- One child appended to a board element by `createBoard` (lines 136-171): a hidden
filler without data attributes and without listeners, or a cell carrying `data-row`,
`data-col`, the colour of the knight span if there is one, and whether the click,
dragover and drop listeners were attached (`isPlayable`). -/
inductive CellElement where
  | hidden
  | shown (row col : Int) (knight : Option KnightType) (playable : Bool)
deriving DecidableEq

/-- Lines 130-174: the children of the board element, row by row. -/
def createBoard (config : Config) (isPlayable : Bool) : List CellElement :=
  (List.range 4).flatMap fun row =>
    (List.range 4).map fun col =>
      if !isValidPosition row col then CellElement.hidden
      else
        CellElement.shown row col ((config.find? (isAt row col)).map (fun k => k.type))
          isPlayable

/-- A click on the `n`-th child of the play board, which is always the result of
`createBoard(playBoard, gameState.currentConfig, true)` (lines 248, 307, 318, 322).
Only a child with a click listener runs `handleCellClick`, with its own data
attributes. -/
def clickOn (s : GameState) (n : Nat) : Run :=
  match (createBoard s.currentConfig true)[n]? with
  | some (.shown row col _ true) => handleCellClick s row col
  | _ => ⟨s, false⟩

/-- A drop on the `n`-th child of the play board; only a child with a drop listener
runs `handleDrop`, with its own data attributes. -/
def dropOn (s : GameState) (n : Nat) : Run :=
  match (createBoard s.currentConfig true)[n]? with
  | some (.shown row col _ true) => handleDrop s row col
  | _ => ⟨s, false⟩

/-! ## Valid-move highlighting -/

/-- Lines 283-296. The loop visits every child of the play board, hidden fillers
included, and the result lists the data attributes of the children that receive the
class `valid-move`. A hidden child has no data attributes, so `parseInt` gives `NaN`
for both coordinates: `k.row === NaN` is false for every knight, hence `hasPiece` is
false, and `Math.abs(row - NaN) === 2` is false, hence `isValidKnightMove` is false and
the child is not marked. -/
def highlightValidMoves (s : GameState) (row col : Int) : List (Int × Int) :=
  (createBoard s.currentConfig true).filterMap fun cell =>
    match cell with
    | .hidden => none
    | .shown targetRow targetCol _ _ =>
      let hasPiece := s.currentConfig.any (isAt targetRow targetCol)
      if hasPiece then none
      else if isValidKnightMove row col targetRow targetCol then some (targetRow, targetCol)
      else none

/-! ## Sequences of accepted moves -/

/-- A move, written as source cell and destination cell. -/
abbrev Move := (Int × Int) × (Int × Int)

/-- The move is one the page performs: the game is not over (line 230), a piece stands
on the source (lines 88, 239), the destination is a board cell (line 140), no piece
stands on it (lines 93, 206), and the offsets form a knight move (lines 97, 209, 233). -/
def accepted (s : GameState) (m : Move) : Bool :=
  !s.gameOver && s.currentConfig.any (isAt m.1.1 m.1.2) && isValidPosition m.2.1 m.2.2 &&
    !s.currentConfig.any (isAt m.2.1 m.2.2) && isValidKnightMove m.1.1 m.1.2 m.2.1 m.2.2

/-- Runs `moveKnight` on each move in turn; `none` as soon as a move is not accepted. -/
def playMoves : GameState → List Move → Option GameState
  | s, [] => some s
  | s, m :: rest =>
    if accepted s m then playMoves (moveKnight s m.1.1 m.1.2 m.2.1 m.2.2).state rest
    else none

/-- The part of the state that undo promises to restore: configuration, history and
counter. -/
def core (s : GameState) : Config × List Config × Int :=
  (s.currentConfig, s.moveHistory, s.moves)

/-- The counter agrees with the number of snapshots kept for undo. -/
def CounterInv (s : GameState) : Prop :=
  s.moves = (s.moveHistory.length : Int)

/-! ## A solving sequence -/

/-- Forty knight moves, each written as source cell and destination cell, that take
`initialConfig` to a configuration matching `targetConfig`. -/
def solutionMoves : List Move :=
  [((3, 0), (1, 1)), ((2, 2), (3, 0)), ((0, 1), (2, 2)), ((1, 1), (2, 3)),
   ((3, 0), (1, 1)), ((2, 2), (3, 0)), ((2, 3), (3, 1)), ((1, 1), (2, 3)),
   ((3, 0), (1, 1)), ((3, 1), (1, 2)), ((2, 3), (3, 1)), ((1, 1), (2, 3)),
   ((3, 2), (1, 1)), ((1, 1), (3, 0)), ((2, 3), (1, 1)), ((1, 1), (3, 2)),
   ((3, 1), (2, 3)), ((2, 3), (1, 1)), ((1, 2), (3, 1)), ((3, 1), (2, 3)),
   ((3, 0), (2, 2)), ((1, 1), (3, 0)), ((2, 3), (1, 1)), ((2, 2), (0, 1)),
   ((3, 0), (2, 2)), ((1, 1), (3, 0)), ((3, 2), (1, 1)), ((1, 1), (2, 3)),
   ((2, 3), (3, 1)), ((3, 0), (1, 1)), ((2, 2), (3, 0)), ((1, 1), (2, 3)),
   ((3, 0), (1, 1)), ((1, 1), (3, 2)), ((2, 3), (1, 1)), ((3, 1), (2, 3)),
   ((1, 1), (3, 0)), ((2, 3), (1, 1)), ((3, 0), (2, 2)), ((1, 1), (3, 0))]

/-- The solving sequence as gestures: click the knight, then click the destination. -/
def solutionClicks : List Event :=
  solutionMoves.flatMap fun m => [Event.click m.1.1 m.1.2, Event.click m.2.1 m.2.2]

/-- The state in which the puzzle has just been solved by `solutionClicks`. -/
def wonState : GameState :=
  runEvents initialState solutionClicks

/-! ## Lemmas about the embedding -/

set_option maxRecDepth 100000

theorem checkForWin_state (s : GameState) :
    (checkForWin s).state =
      { s with gameOver := s.gameOver || (winMatches s.currentConfig == some true) } := by
  unfold checkForWin
  cases h : winMatches s.currentConfig with
  | none => simp
  | some b => cases b <;> simp

theorem moveKnight_of_index (s : GameState) (fromRow fromCol toRow toCol : Int) (i : Nat)
    (hOver : s.gameOver = false)
    (hMove : isValidKnightMove fromRow fromCol toRow toCol = true)
    (hi : s.currentConfig.findIdx? (isAt fromRow fromCol) = some i) :
    moveKnight s fromRow fromCol toRow toCol =
      checkForWin
        { s with
          moveHistory := s.moveHistory ++ [s.currentConfig]
          currentConfig :=
            s.currentConfig.modify (fun k => { k with row := toRow, col := toCol }) i
          moves := s.moves + 1 } := by
  simp [moveKnight, hOver, hMove, hi]

theorem exists_index_of_any (c : Config) (row col : Int)
    (h : c.any (isAt row col) = true) :
    ∃ i, c.findIdx? (isAt row col) = some i := by
  have : (c.findIdx? (isAt row col)).isSome = c.any (isAt row col) := List.findIdx?_isSome
  rw [h] at this
  exact Option.isSome_iff_exists.mp this

theorem moveKnight_engine_congr (s t : GameState) (fromRow fromCol toRow toCol : Int)
    (h : engine s = engine t) :
    engine (moveKnight s fromRow fromCol toRow toCol).state
        = engine (moveKnight t fromRow fromCol toRow toCol).state := by
  simp only [engine, Prod.mk.injEq] at h
  obtain ⟨h1, h2, h3, h4⟩ := h
  unfold moveKnight
  rw [h1, h4]
  by_cases hO : t.gameOver = true
  · simp [hO, engine, h1, h2, h3, h4]
  · by_cases hM : isValidKnightMove fromRow fromCol toRow toCol = true
    · cases hi : t.currentConfig.findIdx? (isAt fromRow fromCol) with
      | none => simp [hO, hM, engine, h1, h2, h3, h4]
      | some i => simp [hO, hM, engine, h1, h2, h3, h4, checkForWin_state]
    · simp [hO, hM, engine, h1, h2, h3, h4]

theorem handleDrop_engine_of_guard (s : GameState) (fromRow fromCol toRow toCol : Int)
    (hRow : s.draggedFromRow = some fromRow) (hCol : s.draggedFromCol = some fromCol)
    (hPiece : s.currentConfig.any (isAt fromRow fromCol) = true)
    (hEmpty : s.currentConfig.any (isAt toRow toCol) = false)
    (hMove : isValidKnightMove fromRow fromCol toRow toCol = true) :
    engine (handleDrop s toRow toCol).state
      = engine (moveKnight s fromRow fromCol toRow toCol).state := by
  have hFind : (s.currentConfig.find? (isAt fromRow fromCol)).isSome = true := by
    rw [List.find?_isSome]
    simpa using hPiece
  unfold handleDrop
  simp only [hRow, hCol, hFind, hEmpty, hMove, Bool.not_false, Bool.and_self, if_true]
  split <;> simp [engine]

theorem handleCellClick_engine_of_guard (s : GameState) (fromRow fromCol toRow toCol : Int)
    (hSel : s.selectedCell = some ⟨fromRow, fromCol⟩)
    (hEmpty : s.currentConfig.any (isAt toRow toCol) = false)
    (hMove : isValidKnightMove fromRow fromCol toRow toCol = true) :
    engine (handleCellClick s toRow toCol).state
      = engine (moveKnight s fromRow fromCol toRow toCol).state := by
  unfold handleCellClick
  simp only [hSel, hEmpty, hMove, Bool.not_false, Bool.and_self, if_true]
  split <;> simp [engine]



theorem everyMatches_eq_some_true_iff (tgt cur : Config) (i : Nat) :
    everyMatches tgt cur i = some true ↔ cur <+: tgt.drop i := by
  induction cur generalizing i with
  | nil => simp [everyMatches]
  | cons k rest ih =>
    unfold everyMatches
    cases h : tgt[i]? with
    | none =>
      have hlen : tgt.length ≤ i := by simpa using h
      simp [List.drop_eq_nil_of_le hlen]
    | some t =>
      have hlt : i < tgt.length := by
        by_contra hc
        have : tgt[i]? = none := by simpa using hc
        rw [this] at h
        cases h
      have ht : tgt[i] = t := by
        rw [List.getElem?_eq_getElem hlt] at h
        exact Option.some.inj h
      rw [List.drop_eq_getElem_cons hlt, ht, List.cons_prefix_cons]
      by_cases hk : k = t
      · subst hk
        simp [ih]
      · have : ¬(k.row = t.row ∧ k.col = t.col ∧ k.type = t.type) := by
          rintro ⟨h1, h2, h3⟩
          apply hk
          cases k
          cases t
          simp_all
        simp [this, hk]

theorem everyMatches_ne_none (tgt cur : Config) (i : Nat)
    (h : cur.length + i ≤ tgt.length) : everyMatches tgt cur i ≠ none := by
  induction cur generalizing i with
  | nil => simp [everyMatches]
  | cons k rest ih =>
    unfold everyMatches
    have hlt : i < tgt.length := by simp at h; omega
    rw [List.getElem?_eq_getElem hlt]
    simp only
    split
    · exact ih (i + 1) (by simp at h; omega)
    · simp

theorem sortConfig_perm (c : Config) : (sortConfig c).Perm c :=
  List.perm_insertionSort _ c

theorem sortConfig_length (c : Config) : (sortConfig c).length = c.length :=
  (sortConfig_perm c).length_eq

theorem sortConfig_of_perm_target :
    ∀ c ∈ targetConfig.permutations', sortConfig c = sortConfig targetConfig := by
  decide

theorem winMatches_iff_perm (current : Config) (hlen : current.length = 4) :
    winMatches current = some true ↔ current.Perm targetConfig := by
  unfold winMatches
  rw [everyMatches_eq_some_true_iff, List.drop_zero]
  constructor
  · intro hp
    have heq : sortConfig current = sortConfig targetConfig :=
      hp.eq_of_length (by rw [sortConfig_length, sortConfig_length, hlen]; rfl)
    exact ((sortConfig_perm current).symm.trans (heq ▸ List.Perm.refl _)).trans
      (sortConfig_perm targetConfig)
  · intro hp
    rw [sortConfig_of_perm_target current (List.mem_permutations'.mpr hp)]

theorem types_modify (c : Config) (toRow toCol : Int) (i : Nat) :
    (c.modify (fun k => { k with row := toRow, col := toCol }) i).map (fun k => k.type)
      = c.map (fun k => k.type) := by
  induction c generalizing i with
  | nil => simp
  | cons a l ih => cases i <;> simp [ih]

theorem mem_cellsOf_modify (c : Config) (toRow toCol : Int) (i : Nat) (x : Int × Int)
    (hx : x ∈ cellsOf (c.modify (fun k => { k with row := toRow, col := toCol }) i)) :
    x = (toRow, toCol) ∨ x ∈ cellsOf c := by
  induction c generalizing i with
  | nil => simp [cellsOf] at hx
  | cons a l ih =>
    cases i with
    | zero =>
      simp only [cellsOf, List.modify_zero_cons, List.map_cons, List.mem_cons] at hx ⊢
      rcases hx with hx | hx
      · exact Or.inl hx
      · exact Or.inr (Or.inr hx)
    | succ n =>
      simp only [cellsOf, List.modify_succ_cons, List.map_cons, List.mem_cons] at hx ⊢
      rcases hx with hx | hx
      · exact Or.inr (Or.inl hx)
      · rcases ih n hx with h | h
        · exact Or.inl h
        · exact Or.inr (Or.inr h)

theorem nodup_cellsOf_modify (c : Config) (toRow toCol : Int) (i : Nat)
    (hnd : (cellsOf c).Nodup) (hfree : (toRow, toCol) ∉ cellsOf c) :
    (cellsOf (c.modify (fun k => { k with row := toRow, col := toCol }) i)).Nodup := by
  induction c generalizing i with
  | nil => simp [cellsOf]
  | cons a l ih =>
    have hnd' : (a.row, a.col) ∉ cellsOf l ∧ (cellsOf l).Nodup := by
      simpa [cellsOf] using hnd
    have hfree' : (toRow, toCol) ≠ (a.row, a.col) ∧ (toRow, toCol) ∉ cellsOf l := by
      simpa [cellsOf] using hfree
    cases i with
    | zero =>
      simp only [cellsOf, List.modify_zero_cons, List.map_cons, List.nodup_cons]
      exact ⟨hfree'.2, hnd'.2⟩
    | succ n =>
      simp only [cellsOf, List.modify_succ_cons, List.map_cons, List.nodup_cons]
      refine ⟨?_, ih n hnd'.2 hfree'.2⟩
      intro hmem
      rcases mem_cellsOf_modify l toRow toCol n _ hmem with h | h
      · exact hfree'.1 h.symm
      · exact hnd'.1 h

theorem legal_modify (c : Config) (toRow toCol : Int) (i : Nat)
    (hall : ∀ k ∈ c, isValidPosition k.row k.col = true)
    (hto : isValidPosition toRow toCol = true) :
    ∀ k ∈ c.modify (fun k => { k with row := toRow, col := toCol }) i,
      isValidPosition k.row k.col = true := by
  induction c generalizing i with
  | nil => simp
  | cons a l ih =>
    have ha := hall a (List.mem_cons_self a l)
    have hl : ∀ k ∈ l, isValidPosition k.row k.col = true :=
      fun k hk => hall k (List.mem_cons_of_mem a hk)
    cases i with
    | zero =>
      intro k hk
      simp only [List.modify_zero_cons, List.mem_cons] at hk
      rcases hk with hk | hk
      · subst hk
        exact hto
      · exact hl k hk
    | succ n =>
      intro k hk
      simp only [List.modify_succ_cons, List.mem_cons] at hk
      rcases hk with hk | hk
      · subst hk
        exact ha
      · exact ih n hl k hk

theorem not_mem_cellsOf_of_any_false (c : Config) (row col : Int)
    (h : c.any (isAt row col) = false) : (row, col) ∉ cellsOf c := by
  intro hmem
  simp only [cellsOf, List.mem_map] at hmem
  obtain ⟨k, hk, hkeq⟩ := hmem
  have hall := List.any_eq_false.mp h k hk
  simp only [Prod.mk.injEq] at hkeq
  simp [isAt, hkeq.1, hkeq.2] at hall

theorem wellFormed_modify (c : Config) (toRow toCol : Int) (i : Nat)
    (hwf : WellFormed c) (hto : isValidPosition toRow toCol = true)
    (hfree : c.any (isAt toRow toCol) = false) :
    WellFormed (c.modify (fun k => { k with row := toRow, col := toCol }) i) := by
  obtain ⟨h1, h2, h3, h4, h5⟩ := hwf
  refine ⟨by simpa using h1, by rw [types_modify]; exact h2, by rw [types_modify]; exact h3,
    nodup_cellsOf_modify c toRow toCol i h4 (not_mem_cellsOf_of_any_false c _ _ hfree),
    legal_modify c toRow toCol i h5 hto⟩

theorem moveKnight_inv (s : GameState) (fromRow fromCol toRow toCol : Int)
    (hinv : Inv s) (hto : isValidPosition toRow toCol = true)
    (hfree : s.currentConfig.any (isAt toRow toCol) = false) :
    Inv (moveKnight s fromRow fromCol toRow toCol).state := by
  by_cases hO : s.gameOver = true
  · simpa [moveKnight, hO] using hinv
  · by_cases hM : isValidKnightMove fromRow fromCol toRow toCol = true
    · cases hi : s.currentConfig.findIdx? (isAt fromRow fromCol) with
      | none => simpa [moveKnight, hO, hM, hi] using hinv
      | some i =>
        rw [moveKnight_of_index s _ _ _ _ i (by simpa using hO) hM hi, checkForWin_state]
        refine ⟨wellFormed_modify _ _ _ _ hinv.1 hto hfree, ?_⟩
        intro c hc
        simp only [List.mem_append, List.mem_singleton] at hc
        rcases hc with hc | hc
        · exact hinv.2 c hc
        · exact hc ▸ hinv.1
    · simpa [moveKnight, hO, hM] using hinv

theorem initialConfig_wellFormed : WellFormed initialConfig := by decide

theorem reset_inv (s : GameState) : Inv (reset s) :=
  ⟨initialConfig_wellFormed, by simp [reset]⟩

theorem undo_inv (s : GameState) (hinv : Inv s) : Inv (undo s) := by
  unfold undo
  cases h : s.moveHistory.getLast? with
  | none => simpa using hinv
  | some previous =>
    refine ⟨hinv.2 previous (List.mem_of_getLast?_eq_some h), ?_⟩
    intro c hc
    exact hinv.2 c (List.dropLast_subset _ hc)

theorem handleDragStart_inv (s : GameState) (row col : Int) (hinv : Inv s) :
    Inv (handleDragStart s row col) := hinv

theorem handleDrop_inv (s : GameState) (row col : Int) (hinv : Inv s)
    (hto : isValidPosition row col = true) : Inv (handleDrop s row col).state := by
  unfold handleDrop
  cases hr : s.draggedFromRow with
  | none => exact hinv
  | some fromRow =>
    cases hc : s.draggedFromCol with
    | none => exact hinv
    | some fromCol =>
      simp only
      split
      · rename_i hguard
        have hfree : s.currentConfig.any (isAt row col) = false := by
          simp only [Bool.and_eq_true, Bool.not_eq_true'] at hguard
          exact hguard.1.2
        have := moveKnight_inv s fromRow fromCol row col hinv hto hfree
        split
        · exact this
        · exact this
      · exact hinv

theorem handleCellClick_inv (s : GameState) (row col : Int) (hinv : Inv s)
    (hto : isValidPosition row col = true) : Inv (handleCellClick s row col).state := by
  unfold handleCellClick
  cases hs : s.selectedCell with
  | none =>
    simp only
    split <;> exact hinv
  | some sel =>
    simp only
    split
    · rename_i hguard
      have hfree : s.currentConfig.any (isAt row col) = false := by
        simp only [Bool.and_eq_true, Bool.not_eq_true'] at hguard
        exact hguard.1
      have := moveKnight_inv s sel.row sel.col row col hinv hto hfree
      split
      · exact this
      · exact this
    · split <;> exact hinv

theorem step_inv (s : GameState) (e : Event) (hinv : Inv s) (he : e.onBoard = true) :
    Inv (step s e) := by
  cases e with
  | click row col => exact handleCellClick_inv s row col hinv he
  | dragStart row col => exact handleDragStart_inv s row col hinv
  | drop row col => exact handleDrop_inv s row col hinv he
  | undo => exact undo_inv s hinv
  | reset => exact reset_inv s

theorem runEvents_inv (events : List Event) (s : GameState) (hinv : Inv s)
    (hev : ∀ e ∈ events, e.onBoard = true) : Inv (runEvents s events) := by
  induction events generalizing s with
  | nil => exact hinv
  | cons e rest ih =>
    simp only [runEvents, List.foldl_cons]
    exact ih (step s e) (step_inv s e hinv (hev e (List.mem_cons_self e rest)))
      (fun e' he' => hev e' (List.mem_cons_of_mem e he'))

theorem undo_gameOver (s : GameState) : (undo s).gameOver = s.gameOver := by
  unfold undo
  cases s.moveHistory.getLast? <;> rfl

theorem reset_gameOver (s : GameState) : (reset s).gameOver = s.gameOver := rfl

theorem moveKnight_of_gameOver (s : GameState) (fromRow fromCol toRow toCol : Int)
    (h : s.gameOver = true) : moveKnight s fromRow fromCol toRow toCol = ⟨s, false⟩ := by
  simp [moveKnight, h]

theorem findIdx?_none_of_any_false (c : Config) (row col : Int)
    (h : c.any (isAt row col) = false) : c.findIdx? (isAt row col) = none := by
  have : (c.findIdx? (isAt row col)).isSome = c.any (isAt row col) := List.findIdx?_isSome
  rw [h] at this
  cases hi : c.findIdx? (isAt row col) with
  | none => rfl
  | some i => rw [hi] at this; cases this

theorem handleDrop_engine_of_occupied (s : GameState) (toRow toCol : Int)
    (hOcc : s.currentConfig.any (isAt toRow toCol) = true) :
    engine (handleDrop s toRow toCol).state = engine s := by
  unfold handleDrop
  cases s.draggedFromRow <;> cases s.draggedFromCol <;> simp [hOcc, engine]

theorem handleCellClick_engine_of_occupied (s : GameState) (toRow toCol : Int)
    (hOcc : s.currentConfig.any (isAt toRow toCol) = true) :
    engine (handleCellClick s toRow toCol).state = engine s := by
  unfold handleCellClick
  cases s.selectedCell with
  | none =>
    simp only
    split <;> rfl
  | some sel =>
    simp only [hOcc, Bool.not_true, Bool.false_and, Bool.false_eq_true, if_false]
    split <;> rfl

theorem createBoard_getElem? (config : Config) (row col : Nat) (hr : row < 4) (hc : col < 4) :
    (createBoard config true)[4 * row + col]? =
      some (if !isValidPosition row col then CellElement.hidden
        else CellElement.shown row col
          ((config.find? (isAt row col)).map (fun k => k.type)) true) := by
  interval_cases row <;> interval_cases col <;> rfl

theorem createBoard_length (config : Config) (isPlayable : Bool) :
    (createBoard config isPlayable).length = 16 := rfl

/-! ## The claims -/

/-- C1. Move/undo round trip: in a state that is not over and whose counter is not
negative, when `moveKnight` accepts a move (the offsets form a knight move and a piece
stands on the source cell) it pushes the old configuration on the history, and the undo
handler run right afterwards gives back exactly the configuration, the counter and the
history that were there before the move. -/
theorem move_then_undo_restores (s : GameState) (fromRow fromCol toRow toCol : Int)
    (hOver : s.gameOver = false) (hMoves : 0 ≤ s.moves)
    (hMove : isValidKnightMove fromRow fromCol toRow toCol = true)
    (hPiece : s.currentConfig.any (isAt fromRow fromCol) = true) :
    (moveKnight s fromRow fromCol toRow toCol).state.moveHistory
        = s.moveHistory ++ [s.currentConfig] ∧
      (undo (moveKnight s fromRow fromCol toRow toCol).state).currentConfig
        = s.currentConfig ∧
      (undo (moveKnight s fromRow fromCol toRow toCol).state).moves = s.moves ∧
      (undo (moveKnight s fromRow fromCol toRow toCol).state).moveHistory
        = s.moveHistory := by
  obtain ⟨i, hi⟩ := exists_index_of_any _ _ _ hPiece
  rw [moveKnight_of_index s _ _ _ _ i hOver hMove hi, checkForWin_state]
  simp [undo, hMoves]

/-- Witness for C1: the move (3,0) -> (1,1) from the starting state really changes the
configuration, and undo brings back `initialConfig` and the counter 0. -/
theorem move_then_undo_restores_witness :
    (moveKnight initialState 3 0 1 1).state.currentConfig ≠ initialConfig ∧
      (undo (moveKnight initialState 3 0 1 1).state).currentConfig = initialConfig ∧
      (undo (moveKnight initialState 3 0 1 1).state).moves = 0 :=
  ⟨by decide,
    (move_then_undo_restores initialState 3 0 1 1 (by decide) (by decide) (by decide)
      (by decide)).2.1,
    (move_then_undo_restores initialState 3 0 1 1 (by decide) (by decide) (by decide)
      (by decide)).2.2.1⟩

/-- C2 (the code at the failing input). After the forty moves of `solutionClicks` the
game is over with forty snapshots in the history. The undo handler restores the previous
configuration and counter but leaves `gameOver` set, so the knight move (1,1) -> (3,0),
which has a piece on its source and an empty legal destination, is refused: `moveKnight`
returns the state untouched and the two clicks change no engine field. -/
theorem undo_after_win_keeps_gameOver :
    wonState.gameOver = true ∧
      wonState.moveHistory.length = 40 ∧
      wonState.moves = 40 ∧
      (undo wonState).moves = 39 ∧
      (undo wonState).gameOver = true ∧
      (undo wonState).currentConfig.any (isAt 1 1) = true ∧
      (undo wonState).currentConfig.any (isAt 3 0) = false ∧
      isValidPosition 3 0 = true ∧
      isValidKnightMove 1 1 3 0 = true ∧
      moveKnight (undo wonState) 1 1 3 0 = ⟨undo wonState, false⟩ ∧
      engine (runEvents (undo wonState) [Event.click 1 1, Event.click 3 0])
        = engine (undo wonState) := by
  decide

/-- C3 (the code at the failing input). After the forty moves of `solutionClicks` the
game is over. The reset handler restores `initialConfig`, empties the history and zeroes
the counter but leaves `gameOver` set, so the knight move (3,0) -> (1,1) is refused: the
counter stays 0 and the configuration stays `initialConfig`, whereas the same two clicks
from the starting state perform the move and count 1. -/
theorem reset_after_win_keeps_gameOver :
    wonState.gameOver = true ∧
      (reset wonState).currentConfig = initialConfig ∧
      (reset wonState).gameOver = true ∧
      moveKnight (reset wonState) 3 0 1 1 = ⟨reset wonState, false⟩ ∧
      (runEvents (reset wonState) [Event.click 3 0, Event.click 1 1]).moves = 0 ∧
      (runEvents (reset wonState) [Event.click 3 0, Event.click 1 1]).currentConfig
        = initialConfig ∧
      (runEvents initialState [Event.click 3 0, Event.click 1 1]).moves = 1 := by
  decide

/-- C4. Postcondition of an accepted move: in a state that is not over, with a piece on
`from`, no piece on `to`, and `from` to `to` a knight move (legality of `to` is not
needed), `moveKnight` changes exactly the first piece standing on `from`: that entry gets
the cell `to` and keeps its colour, every other entry and the length are unchanged; the
old configuration is appended to the history, the counter grows by one, and `gameOver`
is set exactly when `checkForWin` finds a match on the new configuration. A drop with the
drag variables on `from`, and a click with the selection on `from`, leave the same
configuration, history, counter and flag as `moveKnight`. -/
theorem accepted_move_postcondition (s : GameState) (fromRow fromCol toRow toCol : Int)
    (hOver : s.gameOver = false)
    (hPiece : s.currentConfig.any (isAt fromRow fromCol) = true)
    (hEmpty : s.currentConfig.any (isAt toRow toCol) = false)
    (hMove : isValidKnightMove fromRow fromCol toRow toCol = true) :
    (∃ (i : Nat) (k : Knight),
        s.currentConfig[i]? = some k ∧ isAt fromRow fromCol k = true ∧
        (∀ j k', j < i → s.currentConfig[j]? = some k' → isAt fromRow fromCol k' = false) ∧
        (moveKnight s fromRow fromCol toRow toCol).state.currentConfig[i]?
          = some ⟨toRow, toCol, k.type⟩ ∧
        (∀ j, j ≠ i →
          (moveKnight s fromRow fromCol toRow toCol).state.currentConfig[j]?
            = s.currentConfig[j]?)) ∧
      (moveKnight s fromRow fromCol toRow toCol).state.currentConfig.length
        = s.currentConfig.length ∧
      (moveKnight s fromRow fromCol toRow toCol).state.moveHistory
        = s.moveHistory ++ [s.currentConfig] ∧
      (moveKnight s fromRow fromCol toRow toCol).state.moves = s.moves + 1 ∧
      ((moveKnight s fromRow fromCol toRow toCol).state.gameOver = true ↔
        winMatches (moveKnight s fromRow fromCol toRow toCol).state.currentConfig
          = some true) ∧
      engine (handleDrop
          { s with draggedFromRow := some fromRow, draggedFromCol := some fromCol }
          toRow toCol).state
        = engine (moveKnight s fromRow fromCol toRow toCol).state ∧
      engine (handleCellClick { s with selectedCell := some ⟨fromRow, fromCol⟩ }
          toRow toCol).state
        = engine (moveKnight s fromRow fromCol toRow toCol).state := by
  obtain ⟨i, hi⟩ := exists_index_of_any _ _ _ hPiece
  have hidx := List.findIdx?_eq_some_iff_getElem.mp hi
  obtain ⟨hlt, hpi, hfirst⟩ := hidx
  refine ⟨⟨i, s.currentConfig[i], ?_, hpi, ?_, ?_, ?_⟩, ?_, ?_, ?_, ?_, ?_, ?_⟩
  · exact List.getElem?_eq_getElem hlt
  · intro j k' hj hk'
    have hjl : j < s.currentConfig.length := Nat.lt_trans hj hlt
    have := hfirst j hj
    rw [List.getElem?_eq_getElem hjl] at hk'
    cases hk'
    simpa using this
  · rw [moveKnight_of_index s _ _ _ _ i hOver hMove hi, checkForWin_state]
    simp [List.getElem?_eq_getElem hlt]
  · intro j hj
    rw [moveKnight_of_index s _ _ _ _ i hOver hMove hi, checkForWin_state]
    simp [List.getElem?_modify_ne _ _ (Ne.symm hj)]
  · rw [moveKnight_of_index s _ _ _ _ i hOver hMove hi, checkForWin_state]
    simp
  · rw [moveKnight_of_index s _ _ _ _ i hOver hMove hi, checkForWin_state]
  · rw [moveKnight_of_index s _ _ _ _ i hOver hMove hi, checkForWin_state]
  · rw [moveKnight_of_index s _ _ _ _ i hOver hMove hi, checkForWin_state]
    simp [hOver]
  · exact (handleDrop_engine_of_guard
        { s with draggedFromRow := some fromRow, draggedFromCol := some fromCol }
        fromRow fromCol toRow toCol rfl rfl hPiece hEmpty hMove).trans
      (moveKnight_engine_congr _ _ _ _ _ _ rfl)
  · exact (handleCellClick_engine_of_guard
        { s with selectedCell := some ⟨fromRow, fromCol⟩ }
        fromRow fromCol toRow toCol rfl hEmpty hMove).trans
      (moveKnight_engine_congr _ _ _ _ _ _ rfl)

/-- Witness for C4 (Scenario B): from the starting state the move (3,0) -> (1,1) is
accepted, the counter becomes 1, the history holds `initialConfig`, and `gameOver` is
not set. -/
theorem accepted_move_postcondition_witness :
    isValidPosition 1 1 = true ∧
      (moveKnight initialState 3 0 1 1).state.moves = 1 ∧
      (moveKnight initialState 3 0 1 1).state.moveHistory = [initialConfig] ∧
      (moveKnight initialState 3 0 1 1).state.gameOver = false :=
  have h := accepted_move_postcondition initialState 3 0 1 1 (by decide) (by decide)
    (by decide) (by decide)
  ⟨by decide, h.2.2.2.1, h.2.2.1,
    Bool.eq_false_iff.mpr (fun hg => absurd (h.2.2.2.2.1.mp hg) (by decide))⟩

/-- C5. Win detection is multiset equality: for a current configuration of exactly four
pieces, the constant `matches` of `checkForWin` is true if and only if the multiset of
the (row, col, type) records of the configuration equals that of `targetConfig`; hence
`checkForWin`, run in a state that is not over, sets `gameOver` exactly in that case, and
the result is the same for every reordering of the pieces. -/
theorem winMatches_iff_multiset_eq (current : Config) (hlen : current.length = 4) :
    (winMatches current = some true ↔
        (current : Multiset Knight) = (targetConfig : Multiset Knight)) ∧
      (∀ s : GameState, s.currentConfig = current → s.gameOver = false →
        ((checkForWin s).state.gameOver = true ↔
          (current : Multiset Knight) = (targetConfig : Multiset Knight))) ∧
      ∀ other : Config, other.Perm current → winMatches other = winMatches current := by
  have hmain : winMatches current = some true ↔
      (current : Multiset Knight) = (targetConfig : Multiset Knight) := by
    rw [winMatches_iff_perm current hlen, Multiset.coe_eq_coe]
  refine ⟨hmain, ?_, ?_⟩
  · intro s hs hO
    rw [checkForWin_state, ← hmain, hs]
    simp [hO]
  intro other hp
  have hlen' : other.length = 4 := hp.length_eq.trans hlen
  have h1 := winMatches_iff_perm other hlen'
  have h2 := winMatches_iff_perm current hlen
  have n1 : winMatches other ≠ none :=
    everyMatches_ne_none _ _ 0 (by rw [sortConfig_length, sortConfig_length, hlen']; decide)
  have n2 : winMatches current ≠ none :=
    everyMatches_ne_none _ _ 0 (by rw [sortConfig_length, sortConfig_length, hlen]; decide)
  have h3 : winMatches other = some true ↔ winMatches current = some true := by
    rw [h1, h2]
    exact ⟨fun h => hp.symm.trans h, fun h => hp.trans h⟩
  cases ho : winMatches other with
  | none => exact absurd ho n1
  | some b =>
    cases hc : winMatches current with
    | none => exact absurd hc n2
    | some b' =>
      rw [ho, hc] at h3
      cases b <;> cases b' <;> simp_all

/-- Witness for C5 (Scenario C): the target with the two black pieces listed in the
other order and the two white pieces listed in the other order is still a match, and
`initialConfig` is not. -/
theorem winMatches_iff_multiset_eq_witness :
    winMatches [⟨2, 2, .black⟩, ⟨0, 1, .black⟩, ⟨3, 2, .white⟩, ⟨3, 0, .white⟩] = some true ∧
      winMatches initialConfig = some false ∧
      (([⟨2, 2, .black⟩, ⟨0, 1, .black⟩, ⟨3, 2, .white⟩, ⟨3, 0, .white⟩] : Config)
          : Multiset Knight) = (targetConfig : Multiset Knight) :=
  ⟨by decide, by decide,
    (winMatches_iff_multiset_eq
      [⟨2, 2, .black⟩, ⟨0, 1, .black⟩, ⟨3, 2, .white⟩, ⟨3, 0, .white⟩] rfl).1.mp (by decide)⟩

/-- C6. Board invariant: after any finite sequence of clicks, drag starts, drops, undos
and resets from the starting state, in which every cell an event is delivered to is one
of the ten board cells, the current configuration has exactly four pieces, two white and
two black, standing on pairwise distinct legal cells. -/
theorem board_invariant (events : List Event)
    (hev : ∀ e ∈ events, e.onBoard = true) :
    WellFormed (runEvents initialState events).currentConfig :=
  (runEvents_inv events initialState ⟨initialConfig_wellFormed, by simp [initialState]⟩ hev).1

/-- Witness for C6: a drag of the black knight from (3,0) to (1,1), a click move of the
white knight from (2,2) to (3,0), an undo, and a refused click on an occupied cell. -/
theorem board_invariant_witness :
    (runEvents initialState
        [Event.dragStart 3 0, Event.drop 1 1, Event.click 2 2, Event.click 3 0, Event.undo,
          Event.click 0 1, Event.click 2 2]).moves = 1 ∧
      WellFormed (runEvents initialState
        [Event.dragStart 3 0, Event.drop 1 1, Event.click 2 2, Event.click 3 0, Event.undo,
          Event.click 0 1, Event.click 2 2]).currentConfig :=
  ⟨by decide,
    board_invariant
      [Event.dragStart 3 0, Event.drop 1 1, Event.click 2 2, Event.click 3 0, Event.undo,
        Event.click 0 1, Event.click 2 2] (by decide)⟩

/-- C7 as stated fails. From the starting state, (0,1) -> (1,3) is a knight move onto a
cell that is not a board position and holds no piece; the guard of `handleDrop`, the
guard of `handleCellClick` and `moveKnight` all let it through: the white knight ends up
on (1,3), a snapshot is pushed and the counter becomes 1. -/
theorem illegal_destination_counterexample :
    isValidPosition 1 3 = false ∧
      isValidKnightMove 0 1 1 3 = true ∧
      initialConfig.any (isAt 1 3) = false ∧
      (handleDrop (handleDragStart initialState 0 1) 1 3).state.currentConfig
        = [⟨1, 3, .white⟩, ⟨2, 2, .white⟩, ⟨3, 0, .black⟩, ⟨3, 2, .black⟩] ∧
      (handleDrop (handleDragStart initialState 0 1) 1 3).state.moveHistory
        = [initialConfig] ∧
      (handleDrop (handleDragStart initialState 0 1) 1 3).state.moves = 1 ∧
      (handleCellClick (handleCellClick initialState 0 1).state 1 3).state.currentConfig
        = [⟨1, 3, .white⟩, ⟨2, 2, .white⟩, ⟨3, 0, .black⟩, ⟨3, 2, .black⟩] ∧
      (handleCellClick (handleCellClick initialState 0 1).state 1 3).state.moves = 1 ∧
      (moveKnight initialState 0 1 1 3).state.currentConfig
        = [⟨1, 3, .white⟩, ⟨2, 2, .white⟩, ⟨3, 0, .black⟩, ⟨3, 2, .black⟩] := by
  decide

/-- C7 amended. An illegal destination is shut out before the guard, not by it:
`createBoard` gives the click and drop listeners only to the grid cells for which
`isValidPosition` holds. So a click or a drop on the board element of a grid cell that
is not a board position runs no handler and leaves the whole state as it was, and every
call of `handleCellClick` or `handleDrop` that a click or drop on the play board does
make has a legal cell as its argument. -/
theorem illegal_destination_unreachable (s : GameState) (row col : Nat)
    (hr : row < 4) (hc : col < 4) (hIllegal : isValidPosition row col = false) :
    clickOn s (4 * row + col) = ⟨s, false⟩ ∧
      dropOn s (4 * row + col) = ⟨s, false⟩ ∧
      (∀ n, clickOn s n = ⟨s, false⟩ ∨
        ∃ r c, isValidPosition r c = true ∧ clickOn s n = handleCellClick s r c) ∧
      (∀ n, dropOn s n = ⟨s, false⟩ ∨
        ∃ r c, isValidPosition r c = true ∧ dropOn s n = handleDrop s r c) := by
  have hcell := createBoard_getElem? s.currentConfig row col hr hc
  rw [hIllegal] at hcell
  refine ⟨by simp [clickOn, hcell], by simp [dropOn, hcell], ?_, ?_⟩
  · intro n
    by_cases hn : n < 16
    · obtain ⟨r, hr4, c, hc4, rfl⟩ : ∃ r, r < 4 ∧ ∃ c, c < 4 ∧ n = 4 * r + c :=
        ⟨n / 4, by omega, n % 4, by omega, by omega⟩
      cases hv : isValidPosition r c with
      | false =>
        left
        simp [clickOn, createBoard_getElem? s.currentConfig r c hr4 hc4, hv]
      | true =>
        right
        exact ⟨r, c, hv, by simp [clickOn, createBoard_getElem? s.currentConfig r c hr4 hc4, hv]⟩
    · left
      have hlen := createBoard_length s.currentConfig true
      have hnone : (createBoard s.currentConfig true)[n]? = none := by
        rw [List.getElem?_eq_none_iff]
        omega
      simp [clickOn, hnone]
  · intro n
    by_cases hn : n < 16
    · obtain ⟨r, hr4, c, hc4, rfl⟩ : ∃ r, r < 4 ∧ ∃ c, c < 4 ∧ n = 4 * r + c :=
        ⟨n / 4, by omega, n % 4, by omega, by omega⟩
      cases hv : isValidPosition r c with
      | false =>
        left
        simp [dropOn, createBoard_getElem? s.currentConfig r c hr4 hc4, hv]
      | true =>
        right
        exact ⟨r, c, hv, by simp [dropOn, createBoard_getElem? s.currentConfig r c hr4 hc4, hv]⟩
    · left
      have hlen := createBoard_length s.currentConfig true
      have hnone : (createBoard s.currentConfig true)[n]? = none := by
        rw [List.getElem?_eq_none_iff]
        omega
      simp [dropOn, hnone]

/-- Witness for C7 amended: with the white knight of (0,1) being dragged, a drop on the
element of grid cell (1,3), the eighth child of the board, changes nothing, and neither
does a click on it. -/
theorem illegal_destination_unreachable_witness :
    isValidPosition 1 3 = false ∧
      clickOn (handleDragStart initialState 0 1) (4 * 1 + 3)
        = ⟨handleDragStart initialState 0 1, false⟩ ∧
      dropOn (handleDragStart initialState 0 1) (4 * 1 + 3)
        = ⟨handleDragStart initialState 0 1, false⟩ :=
  have h := illegal_destination_unreachable (handleDragStart initialState 0 1) 1 3
    (by decide) (by decide) (by decide)
  ⟨by decide, h.1, h.2.1⟩

/-- C8. Occupied destination is rejected: in every state, when a piece stands on `to`, a
drop on `to` with the drag variables on `from`, and a click on `to` with the selection on
`from`, leave the configuration, the history, the counter and the win flag unchanged,
whatever `from` is and also when `from` to `to` is a knight move. -/
theorem occupied_destination_rejected (s : GameState) (fromRow fromCol toRow toCol : Int)
    (hOcc : s.currentConfig.any (isAt toRow toCol) = true) :
    engine (handleDrop
          { s with draggedFromRow := some fromRow, draggedFromCol := some fromCol }
          toRow toCol).state
        = engine s ∧
      engine (handleCellClick { s with selectedCell := some ⟨fromRow, fromCol⟩ }
          toRow toCol).state
        = engine s :=
  ⟨handleDrop_engine_of_occupied
      { s with draggedFromRow := some fromRow, draggedFromCol := some fromCol } toRow toCol hOcc,
    handleCellClick_engine_of_occupied
      { s with selectedCell := some ⟨fromRow, fromCol⟩ } toRow toCol hOcc⟩

/-- Witness for C8 (Scenario A): from the starting state, (0,1) -> (2,2) is a knight move
onto the other white piece; neither the drop nor the click changes anything. -/
theorem occupied_destination_rejected_witness :
    isValidKnightMove 0 1 2 2 = true ∧
      initialConfig.any (isAt 2 2) = true ∧
      engine (handleDrop
          { initialState with draggedFromRow := some 0, draggedFromCol := some 1 } 2 2).state
        = engine initialState ∧
      engine (handleCellClick { initialState with selectedCell := some ⟨0, 1⟩ } 2 2).state
        = engine initialState :=
  ⟨by decide, by decide, occupied_destination_rejected initialState 0 1 2 2 (by decide)⟩

/-- C9. Game over blocks every move: when `gameOver` is set, `moveKnight` returns at
once for every source and destination, so the whole state (configuration, history,
counter, win flag and the rest) is unchanged and nothing is thrown. -/
theorem gameOver_blocks_moveKnight (s : GameState) (fromRow fromCol toRow toCol : Int)
    (hOver : s.gameOver = true) :
    moveKnight s fromRow fromCol toRow toCol = ⟨s, false⟩ :=
  moveKnight_of_gameOver s fromRow fromCol toRow toCol hOver

/-- Witness for C9: in the solved state the knight move (3,0) -> (1,1), which has a piece
on its source and an empty destination, is refused. -/
theorem gameOver_blocks_moveKnight_witness :
    wonState.gameOver = true ∧
      wonState.currentConfig.any (isAt 3 0) = true ∧
      wonState.currentConfig.any (isAt 1 1) = false ∧
      isValidKnightMove 3 0 1 1 = true ∧
      moveKnight wonState 3 0 1 1 = ⟨wonState, false⟩ :=
  ⟨by decide, by decide, by decide, by decide,
    gameOver_blocks_moveKnight wonState 3 0 1 1 (by decide)⟩

/-- C10. Rejected moves are atomic: in a state that is not over, when no piece stands on
`from` or `from` to `to` is not a knight move, `moveKnight` leaves the whole state as it
was: no snapshot is pushed, the counter is not incremented, nothing is thrown. -/
theorem rejected_move_is_atomic (s : GameState) (fromRow fromCol toRow toCol : Int)
    (hOver : s.gameOver = false)
    (hRej : s.currentConfig.any (isAt fromRow fromCol) = false ∨
      isValidKnightMove fromRow fromCol toRow toCol = false) :
    moveKnight s fromRow fromCol toRow toCol = ⟨s, false⟩ := by
  rcases hRej with h | h
  · by_cases hM : isValidKnightMove fromRow fromCol toRow toCol = true
    · simp [moveKnight, hOver, hM, findIdx?_none_of_any_false _ _ _ h]
    · simp [moveKnight, hOver, hM]
  · simp [moveKnight, hOver, h]

/-- Witness for C10: from the starting state, a knight move from the empty cell (1,1),
and the straight move (3,0) -> (3,1) of a black knight, both leave the state as it was. -/
theorem rejected_move_is_atomic_witness :
    moveKnight initialState 1 1 3 0 = ⟨initialState, false⟩ ∧
      moveKnight initialState 3 0 3 1 = ⟨initialState, false⟩ :=
  ⟨rejected_move_is_atomic initialState 1 1 3 0 (by decide) (Or.inl (by decide)),
    rejected_move_is_atomic initialState 3 0 3 1 (by decide) (Or.inr (by decide))⟩

/-! ## Reset, undo and symmetry -/

/-- C11. Reset postcondition: after the reset handler, whatever the state was, the
current configuration is `initialConfig`, that is White on (0,1) and (2,2) and Black on
(3,0) and (3,2), the history is empty, the counter is 0 and nothing is selected. -/
theorem reset_postcondition (s : GameState) :
    (reset s).currentConfig = initialConfig ∧
      initialConfig = [⟨0, 1, .white⟩, ⟨2, 2, .white⟩, ⟨3, 0, .black⟩, ⟨3, 2, .black⟩] ∧
      (reset s).moveHistory = [] ∧
      (reset s).moves = 0 ∧
      (reset s).selectedCell = none :=
  ⟨rfl, rfl, rfl, rfl, rfl⟩

/-- C12. Reset is idempotent: the reset handler run twice leaves exactly the state that
one run leaves, in every field (configuration, history, counter, win flag, selection and
the drag variables). -/
theorem reset_idempotent (s : GameState) : reset (reset s) = reset s := rfl

/-- C13. Undo on an empty history is a no-op: when the history is empty the undo handler
leaves the whole state, and so the configuration, counter, history and win flag, as it
was. -/
theorem undo_empty_history (s : GameState) (hEmpty : s.moveHistory = []) : undo s = s := by
  simp [undo, hEmpty]

/-- Witness for C13 (Scenario D): undo in the starting state, and undo right after a
reset of the solved state, change nothing. -/
theorem undo_empty_history_witness :
    undo initialState = initialState ∧ undo (reset wonState) = reset wonState :=
  ⟨undo_empty_history initialState rfl, undo_empty_history (reset wonState) rfl⟩

/-- C14. Knight-move symmetry: `isValidKnightMove` gives the same answer when source and
destination are exchanged, for all integer coordinates. -/
theorem isValidKnightMove_symm (r1 c1 r2 c2 : Int) :
    isValidKnightMove r1 c1 r2 c2 = isValidKnightMove r2 c2 r1 c1 := by
  have hr : (r1 - r2).natAbs = (r2 - r1).natAbs := by omega
  have hc : (c1 - c2).natAbs = (c2 - c1).natAbs := by omega
  simp [isValidKnightMove, hr, hc]

/-! ## The highlighted destinations -/

theorem createBoard_eq (config : Config) :
    createBoard config true =
      [CellElement.hidden,
        CellElement.shown 0 1 ((config.find? (isAt 0 1)).map (fun k => k.type)) true,
        CellElement.hidden, CellElement.hidden, CellElement.hidden,
        CellElement.shown 1 1 ((config.find? (isAt 1 1)).map (fun k => k.type)) true,
        CellElement.shown 1 2 ((config.find? (isAt 1 2)).map (fun k => k.type)) true,
        CellElement.hidden, CellElement.hidden,
        CellElement.shown 2 1 ((config.find? (isAt 2 1)).map (fun k => k.type)) true,
        CellElement.shown 2 2 ((config.find? (isAt 2 2)).map (fun k => k.type)) true,
        CellElement.shown 2 3 ((config.find? (isAt 2 3)).map (fun k => k.type)) true,
        CellElement.shown 3 0 ((config.find? (isAt 3 0)).map (fun k => k.type)) true,
        CellElement.shown 3 1 ((config.find? (isAt 3 1)).map (fun k => k.type)) true,
        CellElement.shown 3 2 ((config.find? (isAt 3 2)).map (fun k => k.type)) true,
        CellElement.shown 3 3 ((config.find? (isAt 3 3)).map (fun k => k.type)) true] := rfl

theorem isValidPosition_iff (r c : Int) :
    isValidPosition r c = true ↔
      (r = 0 ∧ c = 1) ∨ (r = 1 ∧ c = 1) ∨ (r = 1 ∧ c = 2) ∨ (r = 2 ∧ c = 1) ∨
        (r = 2 ∧ c = 2) ∨ (r = 2 ∧ c = 3) ∨ (r = 3 ∧ c = 0) ∨ (r = 3 ∧ c = 1) ∨
        (r = 3 ∧ c = 2) ∨ (r = 3 ∧ c = 3) := by
  simp only [isValidPosition, validPositions, List.any_cons, List.any_nil, Bool.or_false,
    Bool.or_eq_true, Bool.and_eq_true, beq_iff_eq]
  constructor
  · intro h
    rcases h with ⟨h1, h2⟩ | ⟨h1, h2⟩ | ⟨h1, h2⟩ | ⟨h1, h2⟩ | ⟨h1, h2⟩ | ⟨h1, h2⟩ | ⟨h1, h2⟩ |
      ⟨h1, h2⟩ | ⟨h1, h2⟩ | ⟨h1, h2⟩ <;> subst h1 <;> subst h2 <;> simp
  · intro h
    rcases h with ⟨h1, h2⟩ | ⟨h1, h2⟩ | ⟨h1, h2⟩ | ⟨h1, h2⟩ | ⟨h1, h2⟩ | ⟨h1, h2⟩ | ⟨h1, h2⟩ |
      ⟨h1, h2⟩ | ⟨h1, h2⟩ | ⟨h1, h2⟩ <;> subst h1 <;> subst h2 <;> simp

theorem mem_highlightValidMoves (s : GameState) (row col r c : Int) :
    (r, c) ∈ highlightValidMoves s row col ↔
      isValidPosition r c = true ∧ s.currentConfig.any (isAt r c) = false ∧
        isValidKnightMove row col r c = true := by
  rw [isValidPosition_iff]
  unfold highlightValidMoves
  rw [createBoard_eq]
  simp only [List.mem_filterMap, List.mem_cons, List.mem_singleton, List.not_mem_nil, or_false]
  constructor
  · rintro ⟨cell, hcell, hmark⟩
    rcases hcell with h | h | h | h | h | h | h | h | h | h | h | h | h | h | h | h <;>
      subst h <;> simp only [reduceCtorEq] at hmark <;>
      (split at hmark
       · cases hmark
       · split at hmark
         · cases hmark
           simp_all
         · cases hmark)
  · rintro ⟨hpos, hfree, hmove⟩
    refine ⟨CellElement.shown r c
      ((s.currentConfig.find? (isAt r c)).map (fun k => k.type)) true, ?_, ?_⟩
    · rcases hpos with ⟨rfl, rfl⟩ | ⟨rfl, rfl⟩ | ⟨rfl, rfl⟩ | ⟨rfl, rfl⟩ | ⟨rfl, rfl⟩ |
        ⟨rfl, rfl⟩ | ⟨rfl, rfl⟩ | ⟨rfl, rfl⟩ | ⟨rfl, rfl⟩ | ⟨rfl, rfl⟩ <;> simp
    · simp [hfree, hmove]

theorem handleCellClick_engine_of_rejected (s : GameState) (fromRow fromCol r c : Int)
    (hSel : s.selectedCell = some ⟨fromRow, fromCol⟩)
    (h : s.currentConfig.any (isAt r c) = true ∨ isValidKnightMove fromRow fromCol r c = false) :
    engine (handleCellClick s r c).state = engine s := by
  unfold handleCellClick
  have hg : (!s.currentConfig.any (isAt r c) && isValidKnightMove fromRow fromCol r c)
      = false := by
    rcases h with h | h <;> simp [h]
  simp only [hSel, hg, Bool.false_eq_true, if_false]
  split <;> rfl

theorem handleDrop_engine_of_rejected (s : GameState) (fromRow fromCol r c : Int)
    (hRow : s.draggedFromRow = some fromRow) (hCol : s.draggedFromCol = some fromCol)
    (h : s.currentConfig.any (isAt r c) = true ∨ isValidKnightMove fromRow fromCol r c = false) :
    engine (handleDrop s r c).state = engine s := by
  unfold handleDrop
  have hg : ((s.currentConfig.find? (isAt fromRow fromCol)).isSome &&
      !s.currentConfig.any (isAt r c) && isValidKnightMove fromRow fromCol r c) = false := by
    rcases h with h | h <;> simp [h]
  simp only [hRow, hCol, hg, Bool.false_eq_true, if_false]
  rfl

theorem moveKnight_moveHistory_of_accepted (s : GameState) (fromRow fromCol toRow toCol : Int)
    (hOver : s.gameOver = false)
    (hPiece : s.currentConfig.any (isAt fromRow fromCol) = true)
    (hMove : isValidKnightMove fromRow fromCol toRow toCol = true) :
    (moveKnight s fromRow fromCol toRow toCol).state.moveHistory
      = s.moveHistory ++ [s.currentConfig] := by
  obtain ⟨i, hi⟩ := exists_index_of_any _ _ _ hPiece
  rw [moveKnight_of_index s _ _ _ _ i hOver hMove hi, checkForWin_state]

theorem moveHistory_of_engine_eq (s t : GameState) (h : engine s = engine t) :
    s.moveHistory = t.moveHistory := by
  simp only [engine, Prod.mk.injEq] at h
  exact h.2.1

theorem ne_append_singleton (l : List Config) (c : Config) : l ≠ l ++ [c] := by
  intro h
  have := congrArg List.length h
  simp at this

/-- C15 as stated fails in its second half. In the starting state the white knight of
(0,1) has no marked destination, yet (1,3), which is not a board cell, is an unoccupied
knight destination, and the guard of `handleCellClick`, the guard of `handleDrop` and
`moveKnight` accept the move to it: a snapshot is pushed and the counter becomes 1. -/
theorem highlight_accepted_counterexample :
    initialState.gameOver = false ∧
      initialConfig.any (isAt 0 1) = true ∧
      highlightValidMoves initialState 0 1 = [] ∧
      (handleCellClick { initialState with selectedCell := some ⟨0, 1⟩ } 1 3).state.moveHistory
        = [initialConfig] ∧
      (handleCellClick { initialState with selectedCell := some ⟨0, 1⟩ } 1 3).state.moves = 1 ∧
      (handleDrop { initialState with draggedFromRow := some 0, draggedFromCol := some 1 }
          1 3).state.moveHistory = [initialConfig] ∧
      (moveKnight initialState 0 1 1 3).state.moveHistory = [initialConfig] := by
  decide

/-- C15 amended. The cells marked by `highlightValidMoves` for a source are exactly the
board cells that hold no piece and are a knight move away from the source. When the game
is not over and a piece stands on the source, a board cell is marked if and only if a
click on it with the selection on the source performs the move, and if and only if a
drop on it with the drag variables on the source performs the move; on an unmarked
board cell both leave configuration, history, counter and win flag unchanged. -/
theorem highlight_marks_valid_destinations (s : GameState) (row col r c : Int) :
    ((r, c) ∈ highlightValidMoves s row col ↔
        isValidPosition r c = true ∧ s.currentConfig.any (isAt r c) = false ∧
          isValidKnightMove row col r c = true) ∧
      (s.gameOver = false → s.currentConfig.any (isAt row col) = true →
        isValidPosition r c = true →
          ((r, c) ∈ highlightValidMoves s row col ↔
            (handleCellClick { s with selectedCell := some ⟨row, col⟩ } r c).state.moveHistory
              = s.moveHistory ++ [s.currentConfig]) ∧
          ((r, c) ∈ highlightValidMoves s row col ↔
            (handleDrop { s with draggedFromRow := some row, draggedFromCol := some col }
                r c).state.moveHistory
              = s.moveHistory ++ [s.currentConfig]) ∧
          ((r, c) ∉ highlightValidMoves s row col →
            engine (handleCellClick { s with selectedCell := some ⟨row, col⟩ } r c).state
                = engine s ∧
              engine (handleDrop
                  { s with draggedFromRow := some row, draggedFromCol := some col } r c).state
                = engine s)) := by
  refine ⟨mem_highlightValidMoves s row col r c, ?_⟩
  intro hOver hPiece hLegal
  by_cases hmark : (r, c) ∈ highlightValidMoves s row col
  · obtain ⟨_, hfree, hmove⟩ := (mem_highlightValidMoves s row col r c).mp hmark
    have hk := moveKnight_moveHistory_of_accepted s row col r c hOver hPiece hmove
    have hclick : (handleCellClick { s with selectedCell := some ⟨row, col⟩ } r c).state.moveHistory
        = s.moveHistory ++ [s.currentConfig] := by
      rw [moveHistory_of_engine_eq _ _
        ((handleCellClick_engine_of_guard { s with selectedCell := some ⟨row, col⟩ }
          row col r c rfl hfree hmove).trans (moveKnight_engine_congr _ s _ _ _ _ rfl))]
      exact hk
    have hdrop : (handleDrop { s with draggedFromRow := some row, draggedFromCol := some col }
        r c).state.moveHistory = s.moveHistory ++ [s.currentConfig] := by
      rw [moveHistory_of_engine_eq _ _
        ((handleDrop_engine_of_guard
          { s with draggedFromRow := some row, draggedFromCol := some col }
          row col r c rfl rfl hPiece hfree hmove).trans
          (moveKnight_engine_congr _ s _ _ _ _ rfl))]
      exact hk
    exact ⟨⟨fun _ => hclick, fun _ => hmark⟩, ⟨fun _ => hdrop, fun _ => hmark⟩,
      fun hn => absurd hmark hn⟩
  · have hrej : s.currentConfig.any (isAt r c) = true ∨ isValidKnightMove row col r c = false := by
      by_contra hcon
      push_neg at hcon
      apply hmark
      rw [mem_highlightValidMoves]
      exact ⟨hLegal, by simpa using hcon.1, by simpa using hcon.2⟩
    have hclick := handleCellClick_engine_of_rejected
      { s with selectedCell := some ⟨row, col⟩ } row col r c rfl hrej
    have hdrop := handleDrop_engine_of_rejected
      { s with draggedFromRow := some row, draggedFromCol := some col } row col r c rfl rfl hrej
    refine ⟨⟨fun h => absurd h hmark, fun h => ?_⟩, ⟨fun h => absurd h hmark, fun h => ?_⟩,
      fun _ => ⟨hclick, hdrop⟩⟩
    · rw [moveHistory_of_engine_eq _ _ hclick] at h
      exact absurd h (ne_append_singleton _ _)
    · rw [moveHistory_of_engine_eq _ _ hdrop] at h
      exact absurd h (ne_append_singleton _ _)

/-- Witness for C15 amended: in the starting state the black knight of (3,0) has exactly
one marked destination, (1,1), and a click on it with that knight selected performs the
move. -/
theorem highlight_marks_valid_destinations_witness :
    highlightValidMoves initialState 3 0 = [(1, 1)] ∧
      (handleCellClick { initialState with selectedCell := some ⟨3, 0⟩ } 1 1).state.moveHistory
        = initialState.moveHistory ++ [initialState.currentConfig] :=
  ⟨by decide,
    ((highlight_marks_valid_destinations initialState 3 0 1 1).2 (by decide) (by decide)
      (by decide)).1.mp (by decide)⟩

/-! ## Counter and history -/

theorem handleDrop_engine_cases (s : GameState) (row col : Int) :
    engine (handleDrop s row col).state = engine s ∨
      ∃ fromRow fromCol,
        engine (handleDrop s row col).state
          = engine (moveKnight s fromRow fromCol row col).state := by
  unfold handleDrop
  cases s.draggedFromRow with
  | none => exact Or.inl rfl
  | some fromRow =>
    cases s.draggedFromCol with
    | none => exact Or.inl rfl
    | some fromCol =>
      simp only
      split
      · right
        refine ⟨fromRow, fromCol, ?_⟩
        split <;> rfl
      · exact Or.inl rfl

theorem handleCellClick_engine_cases (s : GameState) (row col : Int) :
    engine (handleCellClick s row col).state = engine s ∨
      ∃ fromRow fromCol,
        engine (handleCellClick s row col).state
          = engine (moveKnight s fromRow fromCol row col).state := by
  unfold handleCellClick
  cases s.selectedCell with
  | none =>
    left
    simp only
    split <;> rfl
  | some sel =>
    simp only
    split
    · right
      refine ⟨sel.row, sel.col, ?_⟩
      split <;> rfl
    · left
      split <;> rfl

theorem counterInv_of_engine_eq (s t : GameState) (h : engine s = engine t)
    (hs : CounterInv t) : CounterInv s := by
  simp only [engine, Prod.mk.injEq] at h
  unfold CounterInv at *
  rw [h.2.2.1, h.2.1]
  exact hs

theorem moveKnight_counterInv (s : GameState) (fromRow fromCol toRow toCol : Int)
    (hs : CounterInv s) : CounterInv (moveKnight s fromRow fromCol toRow toCol).state := by
  by_cases hO : s.gameOver = true
  · simpa [moveKnight, hO] using hs
  · by_cases hM : isValidKnightMove fromRow fromCol toRow toCol = true
    · cases hi : s.currentConfig.findIdx? (isAt fromRow fromCol) with
      | none => simpa [moveKnight, hO, hM, hi] using hs
      | some i =>
        rw [moveKnight_of_index s _ _ _ _ i (by simpa using hO) hM hi, checkForWin_state]
        unfold CounterInv at *
        simp only [List.length_append, List.length_singleton, Nat.cast_add, Nat.cast_one]
        rw [hs]
    · simpa [moveKnight, hO, hM] using hs

theorem undo_counterInv (s : GameState) (hs : CounterInv s) : CounterInv (undo s) := by
  unfold undo
  cases h : s.moveHistory.getLast? with
  | none => exact hs
  | some previous =>
    have hne : s.moveHistory ≠ [] := by
      intro hnil
      rw [hnil] at h
      cases h
    have hpos : 0 < s.moveHistory.length := List.length_pos.mpr hne
    unfold CounterInv at *
    simp only [List.length_dropLast]
    rw [hs]
    omega

theorem step_counterInv (s : GameState) (e : Event) (hs : CounterInv s) :
    CounterInv (step s e) := by
  cases e with
  | click row col =>
    rcases handleCellClick_engine_cases s row col with h | ⟨fr, fc, h⟩
    · exact counterInv_of_engine_eq _ _ h hs
    · exact counterInv_of_engine_eq _ _ h (moveKnight_counterInv s fr fc row col hs)
  | dragStart row col => exact hs
  | drop row col =>
    rcases handleDrop_engine_cases s row col with h | ⟨fr, fc, h⟩
    · exact counterInv_of_engine_eq _ _ h hs
    · exact counterInv_of_engine_eq _ _ h (moveKnight_counterInv s fr fc row col hs)
  | undo => exact undo_counterInv s hs
  | reset => rfl

theorem runEvents_counterInv (events : List Event) (s : GameState) (hs : CounterInv s) :
    CounterInv (runEvents s events) := by
  induction events generalizing s with
  | nil => exact hs
  | cons e rest ih =>
    simp only [runEvents, List.foldl_cons]
    exact ih (step s e) (step_counterInv s e hs)

/-- C16. Counter/history invariant: after any finite sequence of clicks, drag starts,
drops, undos and resets from the starting state, `moves` equals the number of
configurations in `moveHistory`; so `moves` is never negative, and whenever the undo
handler has something to pop, `Math.max(0, moves - 1)` is just `moves - 1`, so the
counter after undo is again the length of the history. -/
theorem counter_equals_history_length (events : List Event) :
    (runEvents initialState events).moves
        = ((runEvents initialState events).moveHistory.length : Int) ∧
      0 ≤ (runEvents initialState events).moves ∧
      ((runEvents initialState events).moveHistory ≠ [] →
        max 0 ((runEvents initialState events).moves - 1)
          = (runEvents initialState events).moves - 1) ∧
      (undo (runEvents initialState events)).moves
        = ((undo (runEvents initialState events)).moveHistory.length : Int) := by
  have h : CounterInv (runEvents initialState events) :=
    runEvents_counterInv events initialState rfl
  have hu : CounterInv (undo (runEvents initialState events)) := undo_counterInv _ h
  unfold CounterInv at h hu
  refine ⟨h, ?_, ?_, hu⟩
  · rw [h]
    exact Int.natCast_nonneg _
  · intro hne
    have hpos : 0 < (runEvents initialState events).moveHistory.length :=
      List.length_pos.mpr hne
    rw [h]
    omega

/-- Witness for C16: after one accepted move the counter is 1 with one snapshot kept,
the floor in undo is idle, and after the undo both are 0 again. -/
theorem counter_equals_history_length_witness :
    (runEvents initialState [Event.click 3 0, Event.click 1 1]).moveHistory = [initialConfig] ∧
      (runEvents initialState [Event.click 3 0, Event.click 1 1]).moves = 1 ∧
      max 0 ((runEvents initialState [Event.click 3 0, Event.click 1 1]).moves - 1)
        = (runEvents initialState [Event.click 3 0, Event.click 1 1]).moves - 1 ∧
      (runEvents initialState [Event.click 3 0, Event.click 1 1, Event.undo]).moves = 0 :=
  ⟨by decide, by decide,
    (counter_equals_history_length [Event.click 3 0, Event.click 1 1]).2.2.1 (by decide),
    by decide⟩

/-! ## Solvability and repeated undo -/

/-- C17. The puzzle is solvable: there is a finite sequence of moves, each accepted in
the state it is played in (game not over, a piece on the source, a legal unoccupied
destination, a knight move), that leads from the starting state to a state in which
`checkForWin` finds a match with `targetConfig` and `gameOver` is set; played as clicks
on the source and then on the destination, the sequence gives the very same state. -/
theorem puzzle_is_solvable :
    ∃ (moves : List Move) (s : GameState),
      playMoves initialState moves = some s ∧
        winMatches s.currentConfig = some true ∧
        s.gameOver = true ∧
        runEvents initialState
            (moves.flatMap fun m => [Event.click m.1.1 m.1.2, Event.click m.2.1 m.2.2])
          = s :=
  ⟨solutionMoves, wonState, by decide, by decide, by decide, rfl⟩

theorem undo_core_congr (x y : GameState) (h : core x = core y) :
    core (undo x) = core (undo y) := by
  simp only [core, Prod.mk.injEq] at h
  obtain ⟨h1, h2, h3⟩ := h
  unfold undo
  rw [h2]
  cases y.moveHistory.getLast? with
  | none => simp [core, h1, h2, h3]
  | some previous => simp [core, h3]

theorem accepted_iff (s : GameState) (m : Move) :
    accepted s m = true ↔
      s.gameOver = false ∧ s.currentConfig.any (isAt m.1.1 m.1.2) = true ∧
        isValidPosition m.2.1 m.2.2 = true ∧ s.currentConfig.any (isAt m.2.1 m.2.2) = false ∧
        isValidKnightMove m.1.1 m.1.2 m.2.1 m.2.2 = true := by
  simp [accepted, and_assoc]

theorem undo_moveKnight_core (s : GameState) (m : Move) (hacc : accepted s m = true)
    (hMoves : 0 ≤ s.moves) :
    core (undo (moveKnight s m.1.1 m.1.2 m.2.1 m.2.2).state) = core s := by
  obtain ⟨hOver, hPiece, _, _, hMove⟩ := (accepted_iff s m).mp hacc
  obtain ⟨i, hi⟩ := exists_index_of_any _ _ _ hPiece
  rw [moveKnight_of_index s _ _ _ _ i hOver hMove hi, checkForWin_state]
  simp [undo, core, hMoves]

theorem moveKnight_moves_of_accepted (s : GameState) (m : Move) (hacc : accepted s m = true) :
    (moveKnight s m.1.1 m.1.2 m.2.1 m.2.2).state.moves = s.moves + 1 := by
  obtain ⟨hOver, hPiece, _, _, hMove⟩ := (accepted_iff s m).mp hacc
  obtain ⟨i, hi⟩ := exists_index_of_any _ _ _ hPiece
  rw [moveKnight_of_index s _ _ _ _ i hOver hMove hi, checkForWin_state]

theorem undo_iterate_core (moves : List Move) (s t : GameState) (hMoves : 0 ≤ s.moves)
    (hPlay : playMoves s moves = some t) :
    ∀ k, k ≤ moves.length →
      ∃ u, playMoves s (moves.take (moves.length - k)) = some u ∧
        core (undo^[k] t) = core u := by
  induction moves generalizing s with
  | nil =>
    intro k hk
    have hk0 : k = 0 := by simpa using hk
    subst hk0
    simp only [playMoves, Option.some.injEq] at hPlay
    subst hPlay
    exact ⟨s, rfl, rfl⟩
  | cons m rest ih =>
    intro k hk
    have hacc : accepted s m = true := by
      by_contra hn
      simp [playMoves, hn] at hPlay
    have hRest : playMoves (moveKnight s m.1.1 m.1.2 m.2.1 m.2.2).state rest = some t := by
      simpa [playMoves, hacc] using hPlay
    have hMoves1 : 0 ≤ (moveKnight s m.1.1 m.1.2 m.2.1 m.2.2).state.moves := by
      rw [moveKnight_moves_of_accepted s m hacc]
      omega
    by_cases hle : k ≤ rest.length
    · obtain ⟨u, hu, hcore⟩ := ih _ hMoves1 hRest k hle
      refine ⟨u, ?_, hcore⟩
      have hlen : (m :: rest).length - k = (rest.length - k) + 1 := by
        simp only [List.length_cons]
        omega
      rw [hlen, List.take_succ_cons]
      simpa [playMoves, hacc] using hu
    · have hk1 : k = rest.length + 1 := by
        simp only [List.length_cons] at hk
        omega
      subst hk1
      obtain ⟨u, hu, hcore⟩ := ih _ hMoves1 hRest rest.length (Nat.le_refl _)
      simp only [Nat.sub_self, List.take_zero, playMoves, Option.some.injEq] at hu
      subst hu
      refine ⟨s, by simp [playMoves], ?_⟩
      rw [Function.iterate_succ_apply']
      exact (undo_core_congr _ _ hcore).trans (undo_moveKnight_core s m hacc hMoves)

/-- C18. Undo is last-in-first-out: from a state whose counter is not negative, after
any sequence of n accepted moves (the last of which may even win), n undos restore the
configuration, the history and the counter of the state before the first move; and for
every k up to n, k undos give the configuration, history and counter that held after
the first n - k moves, so each single undo takes back exactly the most recent move not
yet undone. -/
theorem undo_is_last_in_first_out (s t : GameState) (moves : List Move)
    (hMoves : 0 ≤ s.moves) (hPlay : playMoves s moves = some t) :
    core (undo^[moves.length] t) = core s ∧
      ∀ k, k ≤ moves.length →
        ∃ u, playMoves s (moves.take (moves.length - k)) = some u ∧
          core (undo^[k] t) = core u := by
  refine ⟨?_, undo_iterate_core moves s t hMoves hPlay⟩
  obtain ⟨u, hu, hcore⟩ := undo_iterate_core moves s t hMoves hPlay moves.length (Nat.le_refl _)
  simp only [Nat.sub_self, List.take_zero, playMoves, Option.some.injEq] at hu
  subst hu
  exact hcore

/-- Witness for C18: three accepted moves from the starting state, then three undos,
give back `initialConfig`, the empty history and the counter 0; after one undo the
configuration is the one that held after the first two moves. -/
theorem undo_is_last_in_first_out_witness :
    playMoves initialState [((3, 0), (1, 1)), ((2, 2), (3, 0)), ((0, 1), (2, 2))]
        = some (runEvents initialState
          [Event.click 3 0, Event.click 1 1, Event.click 2 2, Event.click 3 0,
            Event.click 0 1, Event.click 2 2]) ∧
      core (undo^[3] (runEvents initialState
          [Event.click 3 0, Event.click 1 1, Event.click 2 2, Event.click 3 0,
            Event.click 0 1, Event.click 2 2]))
        = (initialConfig, [], 0) ∧
      (undo (runEvents initialState
          [Event.click 3 0, Event.click 1 1, Event.click 2 2, Event.click 3 0,
            Event.click 0 1, Event.click 2 2])).currentConfig
        = [⟨0, 1, .white⟩, ⟨3, 0, .white⟩, ⟨1, 1, .black⟩, ⟨3, 2, .black⟩] :=
  ⟨by decide,
    (undo_is_last_in_first_out initialState _
      [((3, 0), (1, 1)), ((2, 2), (3, 0)), ((0, 1), (2, 2))] (by decide) (by decide)).1,
    by decide⟩

end KnightSwap
